import Mathlib

/-!
Verification of the task state engine of a personal todo application
(`src/App.tsx`): the task collection, its mutators (`addTask`,
`toggleTaskDone`, `deleteTask`), its date-based classification
(`isSameDay`, `isInThisWeek`, the today/this-week/other partitions),
its localStorage persistence, and the transient notification timer
(`showMessage`).

The embedding is shallow: the TypeScript record type becomes a Lean
structure, the array helpers (`filter`, `map`, prepend) become their
`List` counterparts, `Date` values are modelled as a local calendar day
index together with the milliseconds elapsed within that day, and the
JSON text stored in localStorage is modelled at the JSON-value level.
-/

namespace TodoApp

/-- The `Task` record of `App.tsx`: `{ id: number; title: string;
dueDate: string; isDone: boolean }`.  The `id` comes from `Date.now()`,
an integer number of milliseconds, so it is modelled as `ℤ`. -/
structure Task where
  id : ℤ
  title : String
  dueDate : String
  isDone : Bool
deriving DecidableEq

/-! ## TaskStore mutators

Each mutator of `App.tsx` reads the current `tasks` array and calls
`setTasks` with a new array, and calls `showMessage` with a status
string.  We model each as a function from the current task list to the
new task list paired with the message text emitted (the empty string
when no message is shown). -/

/-- The warning shown by `addTask` when title or due date is empty. -/
def warnMsg : String := "⚠ タスク名と日付を入力してください"

/-- The success message shown by `addTask`. -/
def addedMsg : String := "✅ タスクを追加しました！"

/-- The message shown by `deleteTask` after a confirmed deletion. -/
def deletedMsg : String := "🚮 タスクを削除しました。"

/-- The message shown by `deleteTask` when the confirm dialog is
declined. -/
def cancelledMsg : String := "キャンセルされました"

/-- Function `addTask` of `App.tsx`.  `now` is the value of `Date.now()` at the
moment of the call; `title` and `dueDate` are the current input-field
values.  `if (!title || !dueDate)` rejects exactly the empty strings
(the only falsy strings); otherwise the new task
`{ id: Date.now(), title, dueDate, isDone: false }` is prepended. -/
def addTask (now : ℤ) (title dueDate : String) (tasks : List Task) :
    List Task × String :=
  if title = "" ∨ dueDate = "" then
    (tasks, warnMsg)
  else
    (⟨now, title, dueDate, false⟩ :: tasks, addedMsg)

/-- Function `toggleTaskDone` of `App.tsx`:
`tasks.map(t => t.id === id ? { ...t, isDone: !t.isDone } : t)`. -/
def toggleTaskDone (id : ℤ) (tasks : List Task) : List Task :=
  tasks.map fun t => if t.id = id then { t with isDone := !t.isDone } else t

/-- Function `deleteTask` of `App.tsx`.  `confirmed` is the boolean returned by
the `window.confirm` oracle.  When confirmed, the list is filtered with
`task.id !== id`; otherwise nothing changes and the cancellation
message is shown. -/
def deleteTask (id : ℤ) (confirmed : Bool) (tasks : List Task) :
    List Task × String :=
  if confirmed then
    (tasks.filter (fun t => t.id ≠ id), deletedMsg)
  else
    (tasks, cancelledMsg)

/-! ## Sessions of operations (for the id-uniqueness claim) -/

/-- One user-driven mutation of the task collection. -/
inductive Op where
  | create (now : ℤ) (title dueDate : String)
  | toggle (id : ℤ)
  | remove (id : ℤ) (confirmed : Bool)
deriving DecidableEq

/-- Apply one operation to the collection (messages discarded). -/
def stepOp (tasks : List Task) (op : Op) : List Task :=
  match op with
  | .create now title dueDate => (addTask now title dueDate tasks).1
  | .toggle id => toggleTaskDone id tasks
  | .remove id confirmed => (deleteTask id confirmed tasks).1

/-- Run a session: apply the operations in order. -/
def runOps (tasks : List Task) (ops : List Op) : List Task :=
  ops.foldl stepOp tasks

/-- The `Date.now()` readings of the create calls of a session, in
order. -/
def createTimes (ops : List Op) : List ℤ :=
  ops.filterMap fun op =>
    match op with
    | .create now _ _ => some now
    | _ => none

/-- The ids of the live collection. -/
def ids (tasks : List Task) : List ℤ := tasks.map Task.id

/-! ## Date model

A JavaScript `Date` is modelled by its local calendar day (as a day
index, with 1970-01-01 being day 0) and the milliseconds elapsed within
that day; the timestamp used for `<=` comparison of `Date` objects is
`day * 86400000 + tod`.  Day 0 (1970-01-01) was a Thursday, so
`getDay()` (0 = Sunday) is `(day + 4) mod 7`. -/

/-- Milliseconds per day. -/
def dayMs : ℤ := 86400000

/-- A `Date`: local calendar day index plus time of day in
milliseconds.  A value is well formed when `0 ≤ tod < dayMs`. -/
structure DateTime where
  day : ℤ
  tod : ℤ
deriving DecidableEq

/-- A well-formed time-of-day component. -/
def DateTime.Valid (d : DateTime) : Prop := 0 ≤ d.tod ∧ d.tod < dayMs

instance (d : DateTime) : Decidable d.Valid := by
  unfold DateTime.Valid; infer_instance

/-- The numeric timestamp of a `Date`, used by the `>=`/`<=`
comparisons in `isInThisWeek`. -/
def ts (d : DateTime) : ℤ := d.day * dayMs + d.tod

/-- JavaScript `getDay()`: 0 = Sunday … 6 = Saturday. -/
def jsWeekday (d : DateTime) : ℤ := (d.day + 4) % 7

/-- Function `isSameDay` of `App.tsx`: `d1.toDateString() === d2.toDateString()`
— equality of the local calendar day. -/
def isSameDay (d1 d2 : DateTime) : Bool := d1.day = d2.day

/-- The `start` date computed inside `isInThisWeek`:
`start.setDate(now.getDate() - now.getDay())` shifts `now` back by
`getDay()` days, keeping the time of day. -/
def weekStart (now : DateTime) : DateTime :=
  ⟨now.day - jsWeekday now, now.tod⟩

/-- The `end` date computed inside `isInThisWeek`:
`end.setDate(now.getDate() + (6 - now.getDay()))`. -/
def weekStop (now : DateTime) : DateTime :=
  ⟨now.day + (6 - jsWeekday now), now.tod⟩

/-- Function `isInThisWeek` of `App.tsx`:
`date >= start && date <= end && !isSameDay(date, now)`, where the
`Date` comparisons compare numeric timestamps. -/
def isInThisWeek (date now : DateTime) : Bool :=
  ts (weekStart now) ≤ ts date ∧ ts date ≤ ts (weekStop now)
    ∧ ¬(isSameDay date now = true)

/-- The this-week test as the specification words it: the date falls
within the Sunday-to-Saturday week containing `now` — both boundary
DAYS fully included — and is not the same calendar day as `now`.
Stated from the spec, to be compared with `isInThisWeek` from the
source. -/
def isInThisWeekSpec (date now : DateTime) : Bool :=
  (weekStart now).day ≤ date.day ∧ date.day ≤ (weekStop now).day
    ∧ ¬(isSameDay date now = true)

/-! ## Partitions

`App.tsx` parses each task's `dueDate` string with `new Date(...)`; we
abstract that parse as a function parameter `parse`, since the
partition logic is uniform in it. -/

/-- View `todayTasks` of `App.tsx`. -/
def todayTasks (parse : String → DateTime) (now : DateTime)
    (tasks : List Task) : List Task :=
  tasks.filter fun t => isSameDay (parse t.dueDate) now

/-- View `thisWeekTasks` of `App.tsx`. -/
def thisWeekTasks (parse : String → DateTime) (now : DateTime)
    (tasks : List Task) : List Task :=
  tasks.filter fun t => isInThisWeek (parse t.dueDate) now

/-- View `otherTasks` of `App.tsx`. -/
def otherTasks (parse : String → DateTime) (now : DateTime)
    (tasks : List Task) : List Task :=
  tasks.filter fun t =>
    !(isSameDay (parse t.dueDate) now) && !(isInThisWeek (parse t.dueDate) now)

/-! ## Persistence

`App.tsx` keeps the collection under the localStorage key `tasks`:
saving runs `localStorage.setItem('tasks', JSON.stringify(tasks))`, and
the `useState` initializer loads with

    try \x7b
      const stored = localStorage.getItem('tasks');
      return stored ? JSON.parse(stored) : [];
    \x7d catch \x7b return []; \x7d

We model the stored text at the JSON-value level: a stored string is
either missing (`getItem` returns null), unreadable (`getItem` throws),
not parseable as JSON (`JSON.parse` throws — this also covers the empty
string, which is falsy and unparseable alike), or parses to a JSON
value `j`. -/

/-- A JSON value, as produced by `JSON.parse` (numbers restricted to
the integers actually occurring in this data model). -/
inductive Json where
  | null
  | bool (b : Bool)
  | num (n : ℤ)
  | str (s : String)
  | arr (elems : List Json)
  | obj (fields : List (String × Json))

/-- The content of the localStorage slot keyed `tasks`. -/
inductive Stored where
  | missing
  | unreadable
  | unparseable
  | parsed (j : Json)

/-- Encoding by `JSON.stringify` of one task: field order is insertion order
(`id`, `title`, `dueDate`, `isDone`), preserved by parse. -/
def encodeTask (t : Task) : Json :=
  .obj [("id", .num t.id), ("title", .str t.title),
        ("dueDate", .str t.dueDate), ("isDone", .bool t.isDone)]

/-- Encoding by `JSON.stringify` of the whole collection. -/
def encodeTasks (tasks : List Task) : Json :=
  .arr (tasks.map encodeTask)

/-- The call `localStorage.setItem('tasks', JSON.stringify(tasks))` of the
`useEffect` save: `JSON.stringify` of an array always yields a
non-empty parseable string. -/
def save (tasks : List Task) : Stored := .parsed (encodeTasks tasks)

/-- The `useState` initializer of `App.tsx` (load).  It is a total
function — the `try/catch` means it never throws — and it performs no
shape validation: whatever JSON value was stored is returned as the
initial `tasks` state. -/
def load (s : Stored) : Json :=
  match s with
  | .missing => .arr []
  | .unreadable => .arr []
  | .unparseable => .arr []
  | .parsed j => j

/-- Read one task back from a JSON value.  This is the inverse of
`encodeTask`, used to state what "the loaded value equals the saved
collection" means; it accepts exactly the shape `JSON.stringify`
produces. -/
def decodeTask (j : Json) : Option Task :=
  match j with
  | .obj [("id", .num i), ("title", .str t),
          ("dueDate", .str d), ("isDone", .bool b)] => some ⟨i, t, d, b⟩
  | _ => none

/-- Read a task list back from a list of JSON values. -/
def decodeTaskList (js : List Json) : Option (List Task) :=
  match js with
  | [] => some []
  | j :: rest =>
    match decodeTask j, decodeTaskList rest with
    | some t, some ts => some (t :: ts)
    | _, _ => none

/-- Read a task collection back from a JSON value: it must be an array
of task records. -/
def decodeTasks (j : Json) : Option (List Task) :=
  match j with
  | .arr js => decodeTaskList js
  | _ => none

/-! ## Notification timer

`showMessage` sets the `message` state, clears any pending timeout held
in `messageTimeoutRef` and schedules `setMessage('')` 3000 ms later.
We model the state as the current message plus the absolute deadline of
the pending dismissal, if any; the event loop fires the dismissal once
its deadline has passed. -/

/-- The notification state: current message text and the absolute time
at which the pending `setMessage('')` callback fires, if one is
scheduled. -/
structure NotifState where
  message : String
  deadline : Option ℤ
deriving DecidableEq

/-- Function `showMessage` of `App.tsx`, called at absolute time `now`: set the
message, cancel the pending timer (the old deadline is dropped), and
schedule dismissal at `now + 3000`. -/
def showMessage (now : ℤ) (msg : String) (_s : NotifState) : NotifState :=
  { message := msg, deadline := some (now + 3000) }

/-- The event loop at absolute time `now`: a scheduled dismissal whose
deadline has passed fires, clearing the message to empty. -/
def fireDismiss (now : ℤ) (s : NotifState) : NotifState :=
  match s.deadline with
  | some d => if d ≤ now then { message := "", deadline := none } else s
  | none => s

/-! ## Theorems -/

/-- A date on the same calendar day as `now` always fails
`isInThisWeek` (the `!isSameDay(date, now)` conjunct). -/
theorem isInThisWeek_sameDay_false {d n : DateTime}
    (h : isSameDay d n = true) : isInThisWeek d n = false := by
  simp only [isInThisWeek]
  rw [decide_eq_false_iff_not]
  rintro ⟨-, -, hc⟩
  exact hc h

/-- C6: `addTask` with an empty title or empty due date leaves the
collection unchanged and shows the warning notification; with
non-empty title and due date it prepends the new task (with
`isDone = false`) to the front, leaving every existing task unchanged,
and shows the success notification. -/
theorem addTask_spec (now : ℤ) (title dueDate : String)
    (tasks : List Task) :
    ((title = "" ∨ dueDate = "") →
      (addTask now title dueDate tasks).1 = tasks ∧
      (addTask now title dueDate tasks).2 = warnMsg) ∧
    (title ≠ "" → dueDate ≠ "" →
      (addTask now title dueDate tasks).1 =
        ⟨now, title, dueDate, false⟩ :: tasks ∧
      (addTask now title dueDate tasks).2 = addedMsg) := by
  constructor
  · intro h
    have he : addTask now title dueDate tasks = (tasks, warnMsg) := by
      unfold addTask
      rw [if_pos h]
    rw [he]
    exact ⟨rfl, rfl⟩
  · intro h1 h2
    have h : ¬(title = "" ∨ dueDate = "") := by
      rintro (h | h)
      · exact h1 h
      · exact h2 h
    have he : addTask now title dueDate tasks =
        (⟨now, title, dueDate, false⟩ :: tasks, addedMsg) := by
      unfold addTask
      rw [if_neg h]
    rw [he]
    exact ⟨rfl, rfl⟩

/-- Witness for C6: on empty title nothing is added; on valid input
the task is prepended. -/
theorem addTask_spec_witness :
    (addTask 10 "" "2024-06-10" []).1 = [] ∧
    (addTask 11 "a" "2024-06-10" []).1 =
      [⟨11, "a", "2024-06-10", false⟩] :=
  ⟨((addTask_spec 10 "" "2024-06-10" []).1 (Or.inl rfl)).1,
   ((addTask_spec 11 "a" "2024-06-10" []).2 (by decide) (by decide)).1⟩

/-- C7: `toggleTaskDone id` keeps the length, and at every position
leaves the task unchanged unless its id matches, in which case exactly
the `isDone` field is flipped (id, title, dueDate untouched); the order
is preserved and the call is a no-op when no task carries the id. -/
theorem toggleTaskDone_spec (id : ℤ) (tasks : List Task) :
    (toggleTaskDone id tasks).length = tasks.length ∧
    (∀ i (h : i < tasks.length)
        (h2 : i < (toggleTaskDone id tasks).length),
      (toggleTaskDone id tasks).get ⟨i, h2⟩ =
        (if (tasks.get ⟨i, h⟩).id = id
         then { tasks.get ⟨i, h⟩ with
                  isDone := !(tasks.get ⟨i, h⟩).isDone }
         else tasks.get ⟨i, h⟩)) ∧
    ((∀ t ∈ tasks, t.id ≠ id) → toggleTaskDone id tasks = tasks) := by
  refine ⟨by simp [toggleTaskDone], ?_, ?_⟩
  · intro i h h2
    simp [toggleTaskDone]
  · intro hno
    have h : ∀ t ∈ tasks,
        (if t.id = id then { t with isDone := !t.isDone } else t) = t := by
      intro t ht
      rw [if_neg (hno t ht)]
    have h2 : toggleTaskDone id tasks = tasks.map (fun t => t) :=
      List.map_congr_left h
    exact h2.trans (List.map_id' tasks)

/-- C1 helper: toggling never changes the ids of the collection. -/
theorem ids_toggleTaskDone (i : ℤ) (tasks : List Task) :
    ids (toggleTaskDone i tasks) = ids tasks := by
  induction tasks with
  | nil => rfl
  | cons t ts ih =>
    simp only [toggleTaskDone, List.map_cons, ids] at ih ⊢
    rw [← ih]
    split <;> rfl

/-- C8: with `confirmed = false` the collection is unchanged and the
cancellation notification is shown; with `confirmed = true` every task
with the id is removed (a no-op on the collection when the id is
absent), the rest survive in order, and the deletion notification is
shown either way. -/
theorem deleteTask_spec (id : ℤ) (tasks : List Task) :
    (deleteTask id false tasks).1 = tasks ∧
    (deleteTask id false tasks).2 = cancelledMsg ∧
    (deleteTask id true tasks).2 = deletedMsg ∧
    (∀ t ∈ (deleteTask id true tasks).1, t.id ≠ id) ∧
    ((deleteTask id true tasks).1).Sublist tasks ∧
    ((∀ t ∈ tasks, t.id ≠ id) → (deleteTask id true tasks).1 = tasks) := by
  have htrue : deleteTask id true tasks =
      (tasks.filter (fun t => t.id ≠ id), deletedMsg) := rfl
  have hfalse : deleteTask id false tasks = (tasks, cancelledMsg) := rfl
  rw [htrue, hfalse]
  refine ⟨rfl, rfl, rfl, ?_, List.filter_sublist tasks, ?_⟩
  · intro t ht
    have h2 := (List.mem_filter.mp ht).2
    simpa using h2
  · intro hno
    exact List.filter_eq_self.mpr (fun t ht => by simpa using hno t ht)

/-- Witness for C8: deleting id 1 unconfirmed changes nothing;
confirmed deletion of an absent id keeps the collection. -/
theorem deleteTask_spec_witness :
    (deleteTask 1 false [⟨1, "a", "d", false⟩]).1 =
      [⟨1, "a", "d", false⟩] ∧
    (deleteTask 9 true [⟨1, "a", "d", false⟩]).1 =
      [⟨1, "a", "d", false⟩] :=
  ⟨(deleteTask_spec 1 [⟨1, "a", "d", false⟩]).1,
   (deleteTask_spec 9 [⟨1, "a", "d", false⟩]).2.2.2.2.2 (by decide)⟩

/-- C10: a confirmed deletion removes every task whose id equals the
given id — duplicates included — keeps every other task with its exact
multiplicity, and the survivors keep their original relative order
(the result is a sublist of the original). -/
theorem deleteTask_removes_all (id : ℤ) (tasks : List Task) (t : Task) :
    ((deleteTask id true tasks).1).Sublist tasks ∧
    (deleteTask id true tasks).1.count t =
      (if t.id = id then 0 else tasks.count t) := by
  have htrue : (deleteTask id true tasks).1 =
      tasks.filter (fun t => t.id ≠ id) := rfl
  rw [htrue]
  refine ⟨List.filter_sublist tasks, ?_⟩
  by_cases h : t.id = id
  · rw [if_pos h, List.count_eq_zero]
    intro hmem
    have h2 := (List.mem_filter.mp hmem).2
    simp [h] at h2
  · rw [if_neg h, List.count_filter]
    simpa using h

/-- C9: `showMessage` sets the message, drops any pending dismissal
deadline and schedules the clear 3000 ms after the call; consequently
after `show "A"` at 0 and `show "B"` at 1000, the message at 3500 is
still `"B"` and at 4100 (600 ms later) it has been cleared. -/
theorem showMessage_spec (s0 : NotifState) (now : ℤ) (msg : String) :
    showMessage now msg s0 =
      { message := msg, deadline := some (now + 3000) } ∧
    (fireDismiss 3500
        (showMessage 1000 "B" (showMessage 0 "A" s0))).message = "B" ∧
    (fireDismiss 4100 (fireDismiss 3500
        (showMessage 1000 "B" (showMessage 0 "A" s0)))).message = "" := by
  refine ⟨rfl, ?_, ?_⟩ <;> rfl

/-- Witness for C7: toggling id 1 in a singleton flips its `isDone`;
toggling an absent id 5 changes nothing. -/
theorem toggleTaskDone_spec_witness :
    (toggleTaskDone 1 [⟨1, "a", "d", false⟩]).get ⟨0, by decide⟩ =
      ⟨1, "a", "d", true⟩ ∧
    toggleTaskDone 5 [⟨1, "a", "d", false⟩] = [⟨1, "a", "d", false⟩] := by
  constructor
  · have h := (toggleTaskDone_spec 1 [⟨1, "a", "d", false⟩]).2.1 0
      (by decide) (by decide)
    simpa using h
  · exact (toggleTaskDone_spec 5 [⟨1, "a", "d", false⟩]).2.2 (by decide)

/-- C2: with any parse of the due-date strings and any reference date,
every task of the collection lands in exactly one of the three
partitions today / this-week / other, and a task due on the same day as
`now` is never in the this-week partition. -/
theorem partition_exactly_one (parse : String → DateTime)
    (now : DateTime) (tasks : List Task) (t : Task) :
    (t ∈ tasks →
      ((t ∈ todayTasks parse now tasks ∧
        t ∉ thisWeekTasks parse now tasks ∧
        t ∉ otherTasks parse now tasks) ∨
       (t ∉ todayTasks parse now tasks ∧
        t ∈ thisWeekTasks parse now tasks ∧
        t ∉ otherTasks parse now tasks) ∨
       (t ∉ todayTasks parse now tasks ∧
        t ∉ thisWeekTasks parse now tasks ∧
        t ∈ otherTasks parse now tasks))) ∧
    (isSameDay (parse t.dueDate) now = true →
      t ∉ thisWeekTasks parse now tasks) := by
  have hweek : isSameDay (parse t.dueDate) now = true →
      t ∉ thisWeekTasks parse now tasks := by
    intro ha hw
    have h2 := (List.mem_filter.mp hw).2
    rw [isInThisWeek_sameDay_false ha] at h2
    exact Bool.false_ne_true h2
  refine ⟨?_, hweek⟩
  intro ht
  rcases Bool.eq_false_or_eq_true (isSameDay (parse t.dueDate) now)
    with ha | ha
  · left
    refine ⟨List.mem_filter.mpr ⟨ht, ha⟩, hweek ha, ?_⟩
    intro h
    have h2 := (List.mem_filter.mp h).2
    simp [ha] at h2
  · rcases Bool.eq_false_or_eq_true (isInThisWeek (parse t.dueDate) now)
      with hb | hb
    · right; left
      refine ⟨?_, List.mem_filter.mpr ⟨ht, hb⟩, ?_⟩
      · intro h
        have h2 := (List.mem_filter.mp h).2
        rw [ha] at h2
        exact Bool.false_ne_true h2
      · intro h
        have h2 := (List.mem_filter.mp h).2
        simp [hb] at h2
    · right; right
      refine ⟨?_, ?_, List.mem_filter.mpr ⟨ht, by simp [ha, hb]⟩⟩
      · intro h
        have h2 := (List.mem_filter.mp h).2
        rw [ha] at h2
        exact Bool.false_ne_true h2
      · intro h
        have h2 := (List.mem_filter.mp h).2
        rw [hb] at h2
        exact Bool.false_ne_true h2

/-- Witness for C2: a task due on the reference day is in the today
partition and not in the this-week partition. -/
theorem partition_exactly_one_witness :
    (⟨1, "a", "d", false⟩ : Task) ∈
      todayTasks (fun _ => ⟨0, 0⟩) ⟨0, 0⟩ [⟨1, "a", "d", false⟩] ∧
    (⟨1, "a", "d", false⟩ : Task) ∉
      thisWeekTasks (fun _ => ⟨0, 0⟩) ⟨0, 0⟩ [⟨1, "a", "d", false⟩] := by
  have h := (partition_exactly_one (fun _ => ⟨0, 0⟩) ⟨0, 0⟩
    [⟨1, "a", "d", false⟩] ⟨1, "a", "d", false⟩).1 (by decide)
  have hw := (partition_exactly_one (fun _ => ⟨0, 0⟩) ⟨0, 0⟩
    [⟨1, "a", "d", false⟩] ⟨1, "a", "d", false⟩).2 (by decide)
  rcases h with ⟨h1, -, -⟩ | ⟨-, h2, -⟩ | ⟨-, -, h3⟩
  · exact ⟨h1, hw⟩
  · exact absurd h2 hw
  · exact absurd h3 (by decide)

/-- C3 counterexample: `now` is day 6 (a Wednesday) at 1000 ms past
midnight, and `d` is day 3, the Sunday of that very week, at midnight.
The spec's day-based reading puts `d` in this week, but the code's
timestamp comparison rejects it, because `start` keeps `now`'s
time of day and midnight lies 1000 ms before it. -/
theorem isInThisWeek_counterexample :
    isInThisWeekSpec ⟨3, 0⟩ ⟨6, 1000⟩ = true ∧
    isInThisWeek ⟨3, 0⟩ ⟨6, 1000⟩ = false ∧
    (⟨3, 0⟩ : DateTime).Valid ∧ (⟨6, 1000⟩ : DateTime).Valid ∧
    jsWeekday ⟨6, 1000⟩ = 3 ∧ (weekStart ⟨6, 1000⟩).day = 3 := by
  refine ⟨by decide, by decide, by decide, by decide, by decide, by decide⟩

/-- C3 amended: the code's this-week test compares full timestamps, so
for well-formed dates it holds iff the date's day lies strictly inside
the Sunday-to-Saturday week of `now`, or on the Sunday boundary at or
after `now`'s time of day, or on the Saturday boundary at or before
`now`'s time of day — and the date is not the same day as `now`. -/
theorem isInThisWeek_characterization (date now : DateTime)
    (hd : date.Valid) (hn : now.Valid) :
    isInThisWeek date now = true ↔
      (((weekStart now).day < date.day ∨
        (date.day = (weekStart now).day ∧ now.tod ≤ date.tod)) ∧
       (date.day < (weekStop now).day ∨
        (date.day = (weekStop now).day ∧ date.tod ≤ now.tod)) ∧
       date.day ≠ now.day) := by
  obtain ⟨hd1, hd2⟩ := hd
  obtain ⟨hn1, hn2⟩ := hn
  simp only [dayMs] at hd2 hn2
  simp only [isInThisWeek, weekStart, weekStop, ts, isSameDay, jsWeekday,
    dayMs, decide_eq_true_eq]
  omega

/-- Witness for C3's amended theorem at day 4 (inside the week of the
Wednesday day 6): midnight on an interior day passes the test. -/
theorem isInThisWeek_characterization_witness :
    isInThisWeek ⟨4, 0⟩ ⟨6, 1000⟩ = true ↔
      (((weekStart ⟨6, 1000⟩).day < (4 : ℤ) ∨
        ((4 : ℤ) = (weekStart ⟨6, 1000⟩).day ∧ (1000 : ℤ) ≤ 0)) ∧
       ((4 : ℤ) < (weekStop ⟨6, 1000⟩).day ∨
        ((4 : ℤ) = (weekStop ⟨6, 1000⟩).day ∧ (0 : ℤ) ≤ 1000)) ∧
       (4 : ℤ) ≠ 6) :=
  isInThisWeek_characterization ⟨4, 0⟩ ⟨6, 1000⟩ (by decide) (by decide)

/-- Decoding inverts the encoding of a task list. -/
theorem decodeTaskList_encode (tasks : List Task) :
    decodeTaskList (tasks.map encodeTask) = some tasks := by
  induction tasks with
  | nil => rfl
  | cons t ts ih =>
    show decodeTaskList (encodeTask t :: ts.map encodeTask) = some (t :: ts)
    have hdec : decodeTask (encodeTask t) = some t := rfl
    simp only [decodeTaskList, hdec, ih]

/-- C4: loading right after saving recovers exactly the saved
collection — the stored JSON value decodes back to it. -/
theorem load_save_roundtrip (tasks : List Task) :
    decodeTasks (load (save tasks)) = some tasks := by
  have h : load (save tasks) = encodeTasks tasks := rfl
  rw [h]
  exact decodeTaskList_encode tasks

/-- C5 counterexample: the stored slot can hold readable, parseable
JSON of the wrong shape — the number 42, not an array of task records
— and the loader returns it untouched instead of the empty collection,
because the initializer performs no shape validation. -/
theorem load_shape_counterexample :
    decodeTasks (Json.num 42) = none ∧
    load (.parsed (Json.num 42)) = Json.num 42 ∧
    load (.parsed (Json.num 42)) ≠ encodeTasks [] := by
  refine ⟨rfl, rfl, ?_⟩
  intro h
  exact Json.noConfusion h

/-- C5 amended: the loader is a total function (the try/catch means it
never throws); a missing key, unreadable storage, or content that does
not parse as JSON all yield the empty collection, but any value that
does parse is returned as-is, without shape validation. -/
theorem load_soft_fail (j : Json) :
    load .missing = encodeTasks [] ∧
    load .unreadable = encodeTasks [] ∧
    load .unparseable = encodeTasks [] ∧
    load (.parsed j) = j :=
  ⟨rfl, rfl, rfl, rfl⟩

/-- C1 counterexample: two valid create calls within the same
millisecond (`Date.now()` reads 5 both times) produce two live tasks
with the same id 5, so the resulting ids are not pairwise distinct and
the uniqueness invariant is broken by `create` itself. -/
theorem create_same_tick_counterexample :
    ids (runOps [] [.create 5 "a" "2024-06-10",
                    .create 5 "b" "2024-06-11"]) = [5, 5] ∧
    ¬ (ids (runOps [] [.create 5 "a" "2024-06-10",
                       .create 5 "b" "2024-06-11"])).Nodup := by
  refine ⟨by decide, by decide⟩

/-- C1 amended, helper: a confirmed deletion keeps a sub-collection,
so its ids form a sublist of the original ids. -/
theorem ids_deleteTask_sublist (i : ℤ) (confirmed : Bool)
    (tasks : List Task) :
    (ids ((deleteTask i confirmed tasks).1)).Sublist (ids tasks) := by
  cases confirmed
  · exact List.Sublist.refl _
  · exact List.Sublist.map Task.id (List.filter_sublist tasks)

/-- C1 amended: ids stay pairwise distinct across every operation of a
session — create included — provided the `Date.now()` readings of the
create calls are strictly increasing and larger than every id already
live; `toggleTaskDone` and `deleteTask` preserve distinctness
unconditionally, and only same-tick create calls can break it. -/
theorem ids_nodup_invariant (ops : List Op) (tasks0 : List Task)
    (h0 : (ids tasks0).Nodup)
    (hm : (createTimes ops).Pairwise (· < ·))
    (hlt : ∀ c ∈ createTimes ops, ∀ a ∈ ids tasks0, a < c) :
    (ids (runOps tasks0 ops)).Nodup := by
  induction ops generalizing tasks0 with
  | nil => exact h0
  | cons op rest ih =>
    have hrun : runOps tasks0 (op :: rest) = runOps (stepOp tasks0 op) rest :=
      rfl
    rw [hrun]
    cases op with
    | create n title dueDate =>
      have hct : createTimes (Op.create n title dueDate :: rest) =
          n :: createTimes rest := rfl
      rw [hct] at hm hlt
      obtain ⟨hn, hm2⟩ := List.pairwise_cons.mp hm
      by_cases hv : title = "" ∨ dueDate = ""
      · have hstep : stepOp tasks0 (Op.create n title dueDate) = tasks0 := by
          show (addTask n title dueDate tasks0).1 = tasks0
          unfold addTask
          rw [if_pos hv]
        rw [hstep]
        exact ih tasks0 h0 hm2
          (fun c hc a ha => hlt c (List.mem_cons_of_mem n hc) a ha)
      · have hstep : stepOp tasks0 (Op.create n title dueDate) =
            ⟨n, title, dueDate, false⟩ :: tasks0 := by
          show (addTask n title dueDate tasks0).1 = _
          unfold addTask
          rw [if_neg hv]
        rw [hstep]
        refine ih _ ?_ hm2 ?_
        · show (n :: ids tasks0).Nodup
          refine List.nodup_cons.mpr ⟨?_, h0⟩
          intro hmem
          exact absurd rfl
            (ne_of_lt (hlt n (List.mem_cons_self n _) n hmem))
        · intro c hc a ha
          rcases List.mem_cons.mp ha with h | h
          · rw [h]
            exact hn c hc
          · exact hlt c (List.mem_cons_of_mem n hc) a h
    | toggle i =>
      have hstep : ids (stepOp tasks0 (Op.toggle i)) = ids tasks0 :=
        ids_toggleTaskDone i tasks0
      refine ih _ ?_ hm ?_
      · rw [hstep]
        exact h0
      · intro c hc a ha
        rw [hstep] at ha
        exact hlt c hc a ha
    | remove i confirmed =>
      have hsub : (ids (stepOp tasks0 (Op.remove i confirmed))).Sublist
          (ids tasks0) := ids_deleteTask_sublist i confirmed tasks0
      refine ih _ (hsub.nodup h0) hm ?_
      intro c hc a ha
      exact hlt c hc a (hsub.mem ha)

/-- Witness for C1's amended theorem: a session of two creates at
distinct ticks, a toggle and a confirmed delete ends with pairwise
distinct ids. -/
theorem ids_nodup_invariant_witness :
    (ids (runOps [] [.create 1 "a" "2024-06-10",
                     .create 2 "b" "2024-06-11",
                     .toggle 1, .remove 2 true])).Nodup :=
  ids_nodup_invariant
    [.create 1 "a" "2024-06-10", .create 2 "b" "2024-06-11",
     .toggle 1, .remove 2 true]
    [] (by decide) (by decide) (by decide)

end TodoApp
